import Mathlib

/-!
Verification of the oytr reminder scheduler (src/src/main.rs).

Instants are modelled as integers; the external recurrence engine of the cron
crate is modelled by the ascending list of occurrence instants a schedule
denotes, per the contract in the design document.
-/

namespace Oytr

/-- Modelled from the spec: the external `cron::Schedule` (Recurrence Rule
collaborator, missing from src/). Per the data model it is "stored and
round-tripped as that exact string representation", so it keeps the source
expression string alongside the ascending sequence of occurrence instants the
recurrence engine derives from it. -/
structure Schedule where
  source : String
  occs : List Int
deriving Repr, DecidableEq

/-- Modelled from the spec: `parse(expression) -> Rule | ParseError` of the
external recurrence engine. The computation of occurrence instants from the
expression text is the cron evaluator, abstracted as `engine`; a successfully
parsed `Schedule` stores the original expression string as its `source`. -/
def Schedule.fromStr (engine : String → Option (List Int)) (s : String) :
    Option Schedule :=
  (engine s).map fun o => { source := s, occs := o }

/-- Display of the external `Schedule` writes the stored source string. -/
def Schedule.toStr (s : Schedule) : String := s.source

/-- `CronSchedule` (src/src/main.rs lines 55-57): a wrapper around the external
`Schedule`. -/
structure CronSchedule where
  schedule : Schedule
deriving Repr, DecidableEq

/-- `CronSchedule::from_str` (src/src/main.rs lines 86-94): parse the
expression and wrap the resulting `Schedule`. -/
def CronSchedule.fromStr (engine : String → Option (List Int)) (s : String) :
    Option CronSchedule :=
  (Schedule.fromStr engine s).map fun sc => { schedule := sc }

/-- `Display for CronSchedule` (lines 74-78) delegating to the inner
`Schedule`, also `From<CronSchedule> for String` (lines 80-84). -/
def CronSchedule.toStr (c : CronSchedule) : String := c.schedule.toStr

/-- `CronSchedule::serialize` (lines 105-112): serialize the display string. -/
def CronSchedule.serialize (c : CronSchedule) : String := c.toStr

/-- `Reminder` (src/src/main.rs lines 114-127). `id` is an `Option` filled in
only at listing time; `upcoming` carries `#[serde(skip)]`. -/
structure Reminder where
  id : Option Nat
  summary : String
  description : String
  schedule : CronSchedule
  upcoming : Option Int
deriving Repr, DecidableEq

/-- The `upcoming(Local)` iterator of the external cron crate: the ascending
instants of the rule strictly after the reference instant (contract
`occurrences_after(rule, reference_instant)` of the spec). -/
def occurrencesAfter (s : CronSchedule) (now : Int) : List Int :=
  s.schedule.occs.filter fun t => decide (now < t)

/-- `(*reminder.schedule).upcoming(Local).nth(1)` (src/src/main.rs line 179):
the element at index 1 of the upcoming-occurrences iterator. -/
def candidate (s : CronSchedule) (now : Int) : Option Int :=
  (occurrencesAfter s now).get? 1

/-- One Transition Detector step for a single reminder (src/src/main.rs lines
178-192): recompute the candidate; prime when the cache is absent, otherwise
compare and fire. Returns the updated reminder together with the notifications
emitted on this step as (summary, description) pairs. -/
def tickReminder (now : Int) (r : Reminder) : Reminder × List (String × String) :=
  let schedule := candidate r.schedule now
  if r.upcoming.isNone then
    ({ r with upcoming := schedule }, [])
  else if r.upcoming ≠ schedule then
    ({ r with upcoming := schedule }, [(r.summary, r.description)])
  else
    (r, [])

/-- One pass of the watch loop over the whole store in store order
(src/src/main.rs lines 177-194). -/
def tickStore (now : Int) (rs : List Reminder) :
    List Reminder × List (String × String) :=
  match rs with
  | [] => ([], [])
  | r :: rest =>
    let p := tickReminder now r
    let q := tickStore now rest
    (p.1 :: q.1, p.2 ++ q.2)

/-- Iterated ticks of the detector on one reminder, at the given sequence of
reference instants, collecting every notification emitted. -/
def runTicks (ts : List Int) (r : Reminder) : Reminder × List (String × String) :=
  match ts with
  | [] => (r, [])
  | t :: rest =>
    let p := tickReminder t r
    let q := runTicks rest p.1
    (q.1, p.2 ++ q.2)

/-- Serialization of a `Reminder` to its persisted key/value fields (derived
serde impl for lines 114-127): fields in declaration order, the `id` Option is
omitted when absent by the toml serializer, and `upcoming` is `#[serde(skip)]`
so it is never written. -/
def serializeReminder (r : Reminder) : List (String × String) :=
  (match r.id with
   | some i => [("id", toString i)]
   | none => []) ++
  [("summary", r.summary), ("description", r.description),
   ("schedule", r.schedule.serialize)]

/-- Deserialization of a `Reminder` from persisted fields (derived serde impl):
`summary`, `description` and a parseable `schedule` are required, `id` is
optional, and `upcoming` is `#[serde(skip)]` so it always takes its default
value `none`. -/
def deserializeReminder (engine : String → Option (List Int))
    (fields : List (String × String)) : Option Reminder :=
  match fields.lookup "summary", fields.lookup "description",
      fields.lookup "schedule" with
  | some su, some de, some sc =>
    (CronSchedule.fromStr engine sc).map fun c =>
      { id := (fields.lookup "id").bind (fun v => v.toNat?),
        summary := su, description := de, schedule := c, upcoming := none }
  | _, _, _ => none

/-- The `list` subcommand output sequence (src/src/main.rs lines 154-169): each
stored reminder tagged with its current positional index via `enumerate`. -/
def listCmd (rs : List Reminder) : List Reminder :=
  rs.enum.map fun p => { p.2 with id := some p.1 }

/-- The failure mode of `Vec::remove` on an out-of-bounds index. -/
inductive RemoveError where
  | outOfRange
deriving Repr, DecidableEq

/-- `cfg.reminders.remove(id)` (src/src/main.rs line 172): `Vec::remove`
returns the element at the index and shifts every later element left by one;
an out-of-bounds index is a panic, modelled as the `outOfRange` error. -/
def removeCmd (rs : List Reminder) (i : Nat) :
    Except RemoveError (Reminder × List Reminder) :=
  if h : i < rs.length then
    .ok (rs.get ⟨i, h⟩, rs.take i ++ rs.drop (i + 1))
  else
    .error .outOfRange

/-- A whole `remove` invocation (src/src/main.rs lines 170-174): on success the
shrunken store is persisted by `store_path` and the process exits 0; the
out-of-bounds panic aborts with exit code 101 before `store_path` runs, so the
persisted store is left as it was. Returns (exit code, persisted store). -/
def removeInvocation (file : List Reminder) (i : Nat) : Nat × List Reminder :=
  match removeCmd file i with
  | .ok p => (0, p.2)
  | .error _ => (101, file)

/-- A concrete sample reminder, used to instantiate theorems. -/
def sampleA : Reminder :=
  { id := none, summary := "a", description := "da",
    schedule := ⟨⟨"ea", [1, 2, 3]⟩⟩, upcoming := none }

/-- A second concrete sample reminder, used to instantiate theorems. -/
def sampleB : Reminder :=
  { id := none, summary := "b", description := "db",
    schedule := ⟨⟨"eb", [4, 5, 6]⟩⟩, upcoming := none }

/-! ## Helper lemmas -/

/-- On a strictly ascending occurrence list, filtering the instants after `now`
is the same as dropping the leading instants at or before `now`. -/
theorem filter_after_eq_dropWhile (now : Int) :
    ∀ l : List Int, List.Sorted (· < ·) l →
      (l.filter fun t => decide (now < t)) = l.dropWhile fun t => decide (t ≤ now)
  | [], _ => rfl
  | a :: l, h => by
    rcases List.sorted_cons.mp h with ⟨ha, hl⟩
    by_cases hc : now < a
    · have hkeep : (l.filter fun t => decide (now < t)) = l :=
        List.filter_eq_self.mpr fun b hb => by
          simpa using lt_trans hc (ha b hb)
      simp [List.filter_cons, List.dropWhile_cons, hc, not_le.mpr hc, hkeep]
    · have hc2 : a ≤ now := not_lt.mp hc
      simp [List.filter_cons, List.dropWhile_cons, hc, hc2,
        filter_after_eq_dropWhile now l hl]

/-- The candidate when both of the first two listed occurrences lie strictly
after the reference instant: the second listed occurrence. -/
theorem candidate_of_two_after (src : String) (a b : Int) (l : List Int)
    (t : Int) (ha : t < a) (hb : t < b) :
    candidate ⟨⟨src, a :: b :: l⟩⟩ t = some b := by
  simp [candidate, occurrencesAfter, List.filter_cons, ha, hb]

/-- The candidate once the first listed occurrence has been passed but the next
two have not: the third listed occurrence. -/
theorem candidate_of_first_passed (src : String) (a b c : Int) (l : List Int)
    (t : Int) (ha : a ≤ t) (hb : t < b) (hc : t < c) :
    candidate ⟨⟨src, a :: b :: c :: l⟩⟩ t = some c := by
  simp [candidate, occurrencesAfter, List.filter_cons, not_lt.mpr ha, hb, hc]

/-- A detector step on an absent cache primes it with the candidate and emits
nothing. -/
theorem tickReminder_prime (now : Int) (r : Reminder) (h : r.upcoming = none) :
    tickReminder now r
      = ({ r with upcoming := candidate r.schedule now }, []) := by
  simp [tickReminder, h]

/-- A detector step on which the candidate differs from the present cache
stores the candidate and emits one notification. -/
theorem tickReminder_fire (now : Int) (r : Reminder) (v : Int)
    (h : r.upcoming = some v) (hne : candidate r.schedule now ≠ some v) :
    tickReminder now r
      = ({ r with upcoming := candidate r.schedule now },
          [(r.summary, r.description)]) := by
  have hcond : r.upcoming ≠ candidate r.schedule now := by
    rw [h]; exact fun hc => hne hc.symm
  simp [tickReminder, h, h ▸ hcond]

/-- A detector step on which the candidate matches the present cache is a
no-op. -/
theorem tickReminder_steady (now : Int) (r : Reminder) (v : Int)
    (h : r.upcoming = some v) (he : candidate r.schedule now = some v) :
    tickReminder now r = (r, []) := by
  simp [tickReminder, h, he]

/-- Running ticks whose candidates all match the present cache changes nothing
and emits nothing. -/
theorem runTicks_steady (v : Int) :
    ∀ (ts : List Int) (r : Reminder), r.upcoming = some v →
      (∀ t ∈ ts, candidate r.schedule t = some v) → runTicks ts r = (r, [])
  | [], _, _, _ => rfl
  | t :: ts, r, hup, hcand => by
    have h1 : tickReminder t r = (r, []) :=
      tickReminder_steady t r v hup (hcand t (by simp))
    have h2 : runTicks ts r = (r, []) :=
      runTicks_steady v ts r hup fun u hu => hcand u (by simp [hu])
    simp [runTicks, h1, h2]

/-- A prime tick, then a tick whose candidate differs from the primed value,
then steady ticks: exactly one notification in total. -/
theorem runTicks_prime_fire_steady (r : Reminder) (t0 t1 : Int) (ts : List Int)
    (v w : Int) (hup : r.upcoming = none)
    (h0 : candidate r.schedule t0 = some v)
    (h1 : candidate r.schedule t1 = some w)
    (hvw : v ≠ w)
    (hs : ∀ t ∈ ts, candidate r.schedule t = some w) :
    (runTicks (t0 :: t1 :: ts) r).2 = [(r.summary, r.description)] := by
  have e0 : tickReminder t0 r = ({ r with upcoming := some v }, []) := by
    rw [tickReminder_prime t0 r hup, h0]
  have hne1 : candidate ({ r with upcoming := some v } : Reminder).schedule t1
      ≠ some v := by
    show candidate r.schedule t1 ≠ some v
    rw [h1]
    exact fun hc => hvw (Option.some.inj hc).symm
  have e1 : tickReminder t1 ({ r with upcoming := some v } : Reminder)
      = ({ r with upcoming := some w }, [(r.summary, r.description)]) := by
    rw [tickReminder_fire t1 ({ r with upcoming := some v }) v rfl hne1]
    show ({ r with upcoming := candidate r.schedule t1 }, _) = _
    rw [h1]
  have e2 : runTicks ts ({ r with upcoming := some w } : Reminder)
      = ({ r with upcoming := some w }, []) :=
    runTicks_steady w ts _ rfl fun t ht => hs t ht
  simp [runTicks, e0, e1, e2]

/-! ## Claims -/

/-- C1: for every reminder whose cached `upcoming` value is absent, one tick of
the Transition Detector sets `upcoming` to the computed candidate occurrence
and emits no notification. -/
theorem C1_priming (now : Int) (r : Reminder) (h : r.upcoming = none) :
    tickReminder now r = ({ r with upcoming := candidate r.schedule now }, []) :=
  tickReminder_prime now r h

/-- C1 witness at a concrete reminder. -/
theorem C1_priming_witness :
    (Reminder.upcoming
        { id := none, summary := "s", description := "d",
          schedule := ⟨⟨"e", [1, 2, 3]⟩⟩, upcoming := none } = none) ∧
      tickReminder 0
          { id := none, summary := "s", description := "d",
            schedule := ⟨⟨"e", [1, 2, 3]⟩⟩, upcoming := none }
        = ({ id := none, summary := "s", description := "d",
             schedule := ⟨⟨"e", [1, 2, 3]⟩⟩, upcoming := some 2 }, []) :=
  ⟨rfl, by
    rw [C1_priming 0 _ rfl]
    rfl⟩

/-- C3: for every reminder with a present cache, a differing candidate makes
the tick store the candidate and emit exactly one notification carrying the
(summary, description) pair. -/
theorem C3_boundary_fire (now : Int) (r : Reminder) (v : Int)
    (h : r.upcoming = some v) (hne : candidate r.schedule now ≠ some v) :
    tickReminder now r
      = ({ r with upcoming := candidate r.schedule now },
          [(r.summary, r.description)]) :=
  tickReminder_fire now r v h hne

/-- C3 witness at a concrete reminder and instant. -/
theorem C3_boundary_fire_witness :
    (Reminder.upcoming
        { id := none, summary := "s", description := "d",
          schedule := ⟨⟨"e", [1, 2, 3]⟩⟩, upcoming := some 2 } = some 2) ∧
      candidate (⟨⟨"e", [1, 2, 3]⟩⟩ : CronSchedule) 1 ≠ some 2 ∧
      tickReminder 1
          { id := none, summary := "s", description := "d",
            schedule := ⟨⟨"e", [1, 2, 3]⟩⟩, upcoming := some 2 }
        = ({ id := none, summary := "s", description := "d",
             schedule := ⟨⟨"e", [1, 2, 3]⟩⟩, upcoming := some 3 },
            [("s", "d")]) :=
  ⟨rfl, by decide, by
    rw [C3_boundary_fire 1 _ 2 rfl (by decide)]
    rfl⟩

/-- C4: for every reminder with a present cache, a candidate equal to the cache
leaves the reminder unchanged and emits no notification. -/
theorem C4_no_spurious_fire (now : Int) (r : Reminder) (v : Int)
    (h : r.upcoming = some v) (he : candidate r.schedule now = some v) :
    tickReminder now r = (r, []) :=
  tickReminder_steady now r v h he

/-- C4 witness at a concrete reminder and instant. -/
theorem C4_no_spurious_fire_witness :
    (Reminder.upcoming
        { id := none, summary := "s", description := "d",
          schedule := ⟨⟨"e", [1, 2, 3]⟩⟩, upcoming := some 2 } = some 2) ∧
      candidate (⟨⟨"e", [1, 2, 3]⟩⟩ : CronSchedule) 0 = some 2 ∧
      tickReminder 0
          { id := none, summary := "s", description := "d",
            schedule := ⟨⟨"e", [1, 2, 3]⟩⟩, upcoming := some 2 }
        = ({ id := none, summary := "s", description := "d",
             schedule := ⟨⟨"e", [1, 2, 3]⟩⟩, upcoming := some 2 }, []) :=
  ⟨rfl, by decide, C4_no_spurious_fire 0 _ 2 rfl (by decide)⟩

/-- C2: on every tick the candidate is the second element (index 1) of the
ascending sequence of occurrences strictly after `now`: the occurrences-after
iterator is exactly the occurrence list with the instants at or before `now`
dropped, every element of it lies strictly after `now`, it is ascending, and
the candidate is its element at index 1 (the imminent head is skipped). -/
theorem C2_candidate_is_second (s : CronSchedule) (now : Int)
    (hs : List.Sorted (· < ·) s.schedule.occs) :
    occurrencesAfter s now
        = s.schedule.occs.dropWhile (fun t => decide (t ≤ now)) ∧
      (∀ t ∈ occurrencesAfter s now, now < t) ∧
      List.Sorted (· < ·) (occurrencesAfter s now) ∧
      candidate s now = (occurrencesAfter s now).get? 1 := by
  refine ⟨filter_after_eq_dropWhile now _ hs, ?_, ?_, rfl⟩
  · intro t ht
    simpa using (List.mem_filter.mp ht).2
  · exact List.Pairwise.filter _ hs

/-- C2 witness at a concrete schedule and instant. -/
theorem C2_candidate_is_second_witness :
    List.Sorted (· < ·) [1, 2, 3] ∧
      (occurrencesAfter (⟨⟨"e", [1, 2, 3]⟩⟩ : CronSchedule) 1
          = List.dropWhile (fun t => decide (t ≤ 1)) [1, 2, 3] ∧
        (∀ t ∈ occurrencesAfter (⟨⟨"e", [1, 2, 3]⟩⟩ : CronSchedule) 1, 1 < t) ∧
        List.Sorted (· < ·) (occurrencesAfter (⟨⟨"e", [1, 2, 3]⟩⟩ : CronSchedule) 1) ∧
        candidate (⟨⟨"e", [1, 2, 3]⟩⟩ : CronSchedule) 1
          = (occurrencesAfter (⟨⟨"e", [1, 2, 3]⟩⟩ : CronSchedule) 1).get? 1) :=
  ⟨by decide, C2_candidate_is_second ⟨⟨"e", [1, 2, 3]⟩⟩ 1 (by decide)⟩

/-- C5: for a schedule with ascending occurrences T1, T2, T3, ..., a priming
tick strictly before T1 followed by ticks that have crossed T1 but not T2
yields exactly one notification — never zero and never two — namely the one
attributable to the boundary at T1. -/
theorem C5_exactly_once_per_boundary (su de src : String) (T1 T2 T3 : Int)
    (rest : List Int) (t0 : Int) (ts : List Int)
    (hsort : List.Sorted (· < ·) (T1 :: T2 :: T3 :: rest))
    (ht0 : t0 < T1) (hne : ts ≠ [])
    (hts : ∀ t ∈ ts, T1 ≤ t ∧ t < T2) :
    (runTicks (t0 :: ts)
        { id := none, summary := su, description := de,
          schedule := ⟨⟨src, T1 :: T2 :: T3 :: rest⟩⟩, upcoming := none }).2
      = [(su, de)] := by
  obtain ⟨h1all, hsort2⟩ := List.sorted_cons.mp hsort
  obtain ⟨h2all, _⟩ := List.sorted_cons.mp hsort2
  have hT12 : T1 < T2 := h1all T2 (by simp)
  have hT23 : T2 < T3 := h2all T3 (by simp)
  obtain ⟨t1, ts2, rfl⟩ : ∃ a b, ts = a :: b := by
    cases ts with
    | nil => exact absurd rfl hne
    | cons a b => exact ⟨a, b, rfl⟩
  have ht1 := hts t1 (by simp)
  have hcand0 : candidate ⟨⟨src, T1 :: T2 :: T3 :: rest⟩⟩ t0 = some T2 :=
    candidate_of_two_after src T1 T2 (T3 :: rest) t0 ht0 (lt_trans ht0 hT12)
  have hcand1 : candidate ⟨⟨src, T1 :: T2 :: T3 :: rest⟩⟩ t1 = some T3 :=
    candidate_of_first_passed src T1 T2 T3 rest t1 ht1.1 ht1.2
      (lt_trans ht1.2 hT23)
  exact runTicks_prime_fire_steady _ t0 t1 ts2 T2 T3 rfl hcand0 hcand1
    (ne_of_lt hT23) fun t ht =>
      candidate_of_first_passed src T1 T2 T3 rest t (hts t (by simp [ht])).1
        (hts t (by simp [ht])).2 (lt_trans (hts t (by simp [ht])).2 hT23)

/-- C5 witness: occurrences at 10, 20, 30; priming tick at 0; ticks at 12 and
15 have crossed the boundary at 10; exactly one notification. -/
theorem C5_exactly_once_per_boundary_witness :
    List.Sorted (· < ·) [10, 20, 30] ∧ (0 : Int) < 10 ∧
      ([12, 15] : List Int) ≠ [] ∧
      (∀ t ∈ ([12, 15] : List Int), 10 ≤ t ∧ t < 20) ∧
      (runTicks [0, 12, 15]
          { id := none, summary := "s", description := "d",
            schedule := ⟨⟨"e", [10, 20, 30]⟩⟩, upcoming := none }).2
        = [("s", "d")] :=
  ⟨by decide, by decide, by decide, by decide,
    C5_exactly_once_per_boundary "s" "d" "e" 10 20 30 [] 0 [12, 15]
      (by decide) (by decide) (by decide) (by decide)⟩

/-- C6 counterexample: at a tick on which the upcoming iterator yields fewer
than two elements while the cache holds a value, the detector fires a
notification and keeps processing the reminder, instead of stopping it as a
fatal fault without a notification. -/
theorem C6_exhaustion_counterexample :
    (occurrencesAfter (⟨⟨"e", [3, 8]⟩⟩ : CronSchedule) 5).length < 2 ∧
      (tickReminder 5
          { id := none, summary := "s", description := "d",
            schedule := ⟨⟨"e", [3, 8]⟩⟩, upcoming := some 8 }).2
        = [("s", "d")] := by
  exact ⟨by decide, by decide⟩

/-- C6 amended: when the upcoming iterator yields fewer than two elements the
detector does not stop the reminder fatally: with an absent cache the tick
leaves the reminder unchanged and emits nothing, and with a present cache the
tick emits one notification and resets the cache to absent, so the reminder
re-enters the priming state and keeps being processed on later ticks. -/
theorem C6_exhaustion_amended (now : Int) (r : Reminder)
    (h : (occurrencesAfter r.schedule now).length < 2) :
    (r.upcoming = none → tickReminder now r = (r, [])) ∧
      (∀ v, r.upcoming = some v →
        tickReminder now r
          = ({ r with upcoming := none }, [(r.summary, r.description)])) := by
  have hc : candidate r.schedule now = none :=
    List.get?_eq_none.mpr (by omega)
  constructor
  · intro hup
    rw [tickReminder_prime now r hup, hc]
    cases r
    simp_all
  · intro v hv
    have hne : candidate r.schedule now ≠ some v := by
      rw [hc]; exact fun hh => Option.noConfusion hh
    rw [tickReminder_fire now r v hv hne, hc]

/-- C6 amended witness: a schedule with a single remaining occurrence and a
present cache fires and resets on the tick. -/
theorem C6_exhaustion_amended_witness :
    (occurrencesAfter (⟨⟨"e", [9]⟩⟩ : CronSchedule) 0).length < 2 ∧
      tickReminder 0
          { id := none, summary := "s", description := "d",
            schedule := ⟨⟨"e", [9]⟩⟩, upcoming := some 4 }
        = ({ id := none, summary := "s", description := "d",
             schedule := ⟨⟨"e", [9]⟩⟩, upcoming := none }, [("s", "d")]) :=
  ⟨by decide,
    (C6_exhaustion_amended 0
        { id := none, summary := "s", description := "d",
          schedule := ⟨⟨"e", [9]⟩⟩, upcoming := some 4 }
        (by decide)).2 4 rfl⟩

/-- C7: removing at an invalid index fails with the out-of-range error, exits
non-zero and leaves the persisted store unmodified; removing at a valid index
returns the reminder at that position and shifts every higher position down by
one. -/
theorem C7_remove_semantics (rs : List Reminder) (i : Nat) :
    (rs.length ≤ i →
      removeCmd rs i = .error .outOfRange ∧
        removeInvocation rs i = (101, rs)) ∧
      (∀ h : i < rs.length,
        removeCmd rs i = .ok (rs.get ⟨i, h⟩, rs.take i ++ rs.drop (i + 1)) ∧
          removeInvocation rs i = (0, rs.take i ++ rs.drop (i + 1)) ∧
          (rs.take i ++ rs.drop (i + 1)).length = rs.length - 1 ∧
          ∀ j : Nat, (rs.take i ++ rs.drop (i + 1)).get? j
            = if j < i then rs.get? j else rs.get? (j + 1)) := by
  constructor
  · intro hle
    have hni : ¬ i < rs.length := not_lt.mpr hle
    exact ⟨by simp [removeCmd, hni], by simp [removeInvocation, removeCmd, hni]⟩
  · intro h
    refine ⟨by simp [removeCmd, h], by simp [removeInvocation, removeCmd, h],
      ?_, ?_⟩
    · simp only [List.length_append, List.length_take, List.length_drop]
      omega
    · intro j
      have hlen : (rs.take i).length = i := by
        simp only [List.length_take]
        omega
      rw [List.get?_eq_getElem?, List.getElem?_append, hlen]
      by_cases hj : j < i
      · rw [if_pos hj, if_pos hj, List.getElem?_take, if_pos hj,
          List.get?_eq_getElem?]
      · rw [if_neg hj, if_neg hj, List.getElem?_drop, List.get?_eq_getElem?]
        congr 1
        omega

/-- C7 witness: on a two-reminder store, index 5 is rejected leaving the store
as it was, and index 1 removes the second reminder. -/
theorem C7_remove_semantics_witness :
    ([sampleA, sampleB].length ≤ 5 ∧
        removeCmd [sampleA, sampleB] 5 = .error .outOfRange ∧
        removeInvocation [sampleA, sampleB] 5 = (101, [sampleA, sampleB])) ∧
      (1 < [sampleA, sampleB].length ∧
        removeCmd [sampleA, sampleB] 1 = .ok (sampleB, [sampleA]) ∧
        removeInvocation [sampleA, sampleB] 1 = (0, [sampleA]) ∧
        [sampleA].length = 1 ∧
        ([sampleA] : List Reminder).get? 0 = some sampleA) :=
  ⟨⟨by decide, (C7_remove_semantics [sampleA, sampleB] 5).1 (by decide)⟩,
    by
      have hmain := (C7_remove_semantics [sampleA, sampleB] 1).2 (by decide)
      exact ⟨by decide, hmain.1, hmain.2.1, hmain.2.2.1,
        (hmain.2.2.2 0).trans rfl⟩⟩

/-- C8: the cached `upcoming` field is never among the serialized fields of any
reminder, and every reminder obtained by deserialization has `upcoming`
absent. -/
theorem C8_upcoming_never_persisted (r : Reminder) :
    ("upcoming" ∉ (serializeReminder r).map Prod.fst) ∧
      ∀ (engine : String → Option (List Int))
        (fields : List (String × String)) (rem : Reminder),
        deserializeReminder engine fields = some rem → rem.upcoming = none := by
  constructor
  · cases h : r.id <;> simp [serializeReminder, h]
  · intro engine fields rem hde
    unfold deserializeReminder at hde
    split at hde
    · obtain ⟨c, _, rfl⟩ := Option.map_eq_some'.mp hde
      rfl
    · exact Option.noConfusion hde

/-- C8 witness at a concrete reminder and a concrete persisted record. -/
theorem C8_upcoming_never_persisted_witness :
    ("upcoming" ∉ (serializeReminder sampleA).map Prod.fst) ∧
      deserializeReminder (fun _ => some [1, 2])
          [("summary", "s"), ("description", "d"), ("schedule", "e")]
        = some { id := none, summary := "s", description := "d",
                 schedule := ⟨⟨"e", [1, 2]⟩⟩, upcoming := none } ∧
      Reminder.upcoming
          { id := none, summary := "s", description := "d",
            schedule := ⟨⟨"e", [1, 2]⟩⟩, upcoming := none }
        = none :=
  ⟨(C8_upcoming_never_persisted sampleA).1, by decide,
    (C8_upcoming_never_persisted sampleA).2 (fun _ => some [1, 2])
      [("summary", "s"), ("description", "d"), ("schedule", "e")]
      { id := none, summary := "s", description := "d",
        schedule := ⟨⟨"e", [1, 2]⟩⟩, upcoming := none } (by decide)⟩

/-- C9: parsing a valid cron expression string and re-serializing the
resulting schedule yields the exact original string. -/
theorem C9_round_trip (engine : String → Option (List Int)) (s : String)
    (c : CronSchedule) (h : CronSchedule.fromStr engine s = some c) :
    CronSchedule.serialize c = s := by
  unfold CronSchedule.fromStr Schedule.fromStr at h
  rcases he : engine s with _ | o
  · rw [he] at h
    simp at h
  · rw [he] at h
    simp only [Option.map_some'] at h
    obtain rfl := Option.some.inj h
    rfl

/-- C9 witness at a concrete engine and expression. -/
theorem C9_round_trip_witness :
    CronSchedule.fromStr (fun _ => some [1, 2]) "0 9 * * MON"
        = some ⟨⟨"0 9 * * MON", [1, 2]⟩⟩ ∧
      CronSchedule.serialize ⟨⟨"0 9 * * MON", [1, 2]⟩⟩ = "0 9 * * MON" :=
  ⟨rfl, C9_round_trip (fun _ => some [1, 2]) "0 9 * * MON" _ rfl⟩

/-- C10: `list` tags the stored reminders with the zero-based consecutive ids
0, ..., n-1 in store order, and `remove` interprets its argument on the same
zero-based scale: remove(k) returns exactly the reminder that `list` displayed
with id k. -/
theorem C10_positional_ids (rs : List Reminder) :
    ((listCmd rs).map Reminder.id = (List.range rs.length).map some) ∧
      ∀ k, ∀ h : k < rs.length,
        (listCmd rs).get? k = some { rs.get ⟨k, h⟩ with id := some k } ∧
          removeCmd rs k = .ok (rs.get ⟨k, h⟩, rs.take k ++ rs.drop (k + 1)) := by
  constructor
  · unfold listCmd
    rw [List.map_map]
    rw [show (Reminder.id ∘ fun p : Nat × Reminder =>
        { p.2 with id := some p.1 }) = (some ∘ Prod.fst) from rfl]
    rw [← List.map_map, List.enum_map_fst]
  · intro k h
    constructor
    · unfold listCmd
      rw [List.get?_eq_getElem?, List.getElem?_map, List.getElem?_enum,
        List.getElem?_eq_getElem h]
      rfl
    · simp [removeCmd, h]

/-- C10 witness on a two-reminder store at position 1. -/
theorem C10_positional_ids_witness :
    ((listCmd [sampleA, sampleB]).map Reminder.id = [some 0, some 1]) ∧
      (1 < [sampleA, sampleB].length ∧
        (listCmd [sampleA, sampleB]).get? 1
          = some { sampleB with id := some 1 } ∧
        removeCmd [sampleA, sampleB] 1 = .ok (sampleB, [sampleA])) :=
  ⟨(C10_positional_ids [sampleA, sampleB]).1,
    by
      have hmain := (C10_positional_ids [sampleA, sampleB]).2 1 (by decide)
      exact ⟨by decide, hmain.1, hmain.2⟩⟩

end Oytr
